import Mathlib

set_option maxHeartbeats 1000000

/-
Verification of the joi schema library's reference module (lib/ref.js),
alternatives type (lib/types/alternatives.js) and string type
(lib/types/string/index.js) against its natural-language specification.

JavaScript data values are embedded as the inductive type JSValue; machine
numbers are modelled as unbounded integers (the program only compares and
slices with small non-negative limits).  Functions that `Hoek.assert` are
embedded in the `Except String` monad: a thrown construction error is an
`Except.error` carrying the assertion message.
-/

inductive JSValue where
  | undef
  | null
  | boolean (b : Bool)
  | num (n : Int)
  | str (s : String)
  | arr (xs : List JSValue)
  | obj (fields : List (String × JSValue))
  deriving Repr, Inhabited

mutual

/-- Structural equality of embedded JS values (the JS `Map` key equality,
SameValueZero, restricted to JSON-like data). -/
def beqV : JSValue → JSValue → Bool
  | .undef, .undef => true
  | .null, .null => true
  | .boolean a, .boolean b => a == b
  | .num a, .num b => a == b
  | .str a, .str b => a == b
  | .arr a, .arr b => beqL a b
  | .obj a, .obj b => beqF a b
  | _, _ => false

/-- Elementwise equality of JS value lists. -/
def beqL : List JSValue → List JSValue → Bool
  | [], [] => true
  | a :: as, b :: bs => beqV a b && beqL as bs
  | _, _ => false

/-- Elementwise equality of JS object field lists. -/
def beqF : List (String × JSValue) → List (String × JSValue) → Bool
  | [], [] => true
  | (k, v) :: as, (k2, v2) :: bs => k == k2 && beqV v v2 && beqF as bs
  | _, _ => false

end

instance : BEq JSValue := ⟨beqV⟩

/-- Character-level string helpers mirroring the JavaScript string operations
used by the source (split, slice, trim, startsWith); they operate on the
underlying character list so that concrete computations reduce by `rfl`. -/
def splitAux (c : Char) : List Char → List Char → List String
  | [], acc => [String.mk acc.reverse]
  | x :: rest, acc =>
    if x = c then String.mk acc.reverse :: splitAux c rest []
    else splitAux c rest (x :: acc)

/-- JavaScript `s.split(c)` for a single-character separator:
`""` splits to `[""]`, `"a.b"` to `["a", "b"]`. -/
def charSplit (c : Char) (s : String) : List String := splitAux c s.data []

/-- JavaScript whitespace for `String.prototype.trim`. -/
def isJsWS (c : Char) : Bool :=
  c = ' ' ∨ c = '\t' ∨ c = '\n' ∨ c = '\r' ∨ c = '\x0b' ∨ c = '\x0c'

/-- JavaScript `key.trim()`. -/
def jsTrim (s : String) : String :=
  String.mk (((s.data.dropWhile isJsWS).reverse.dropWhile isJsWS).reverse)

/-- JavaScript `key.startsWith(p)`. -/
def jsStartsWith (s p : String) : Bool := p.data.isPrefixOf s.data

/-- JavaScript `s.slice(n)` for a non-negative `n`. -/
def jsDrop (s : String) (n : Nat) : String := String.mk (s.data.drop n)

/-- JavaScript `s.slice(0, n)` for a non-negative `n`. -/
def jsTake (s : String) (n : Nat) : String := String.mk (s.data.take n)

/-- One step of `Hoek.reach`: property access `v[key]` on a JSON-like value.
Object fields are looked up by name, arrays by a numeric index; any other
access yields `undefined` (primitives are modelled with no reachable
properties; the `iterables`/`functions` reach options do not affect
JSON-like data). -/
def reachStep (v : JSValue) (key : String) : JSValue :=
  match v with
  | .obj fields => (((fields.find? (fun f => f.1 == key)).map (·.2)).getD .undef)
  | .arr xs =>
    match key.toNat? with
    | some i => xs.getD i .undef
    | none => .undef
  | _ => (.undef)

/-- `Hoek.reach(target, path)`: walk the path segment by segment. -/
def reach (v : JSValue) (path : List String) : JSValue := path.foldl reachStep v

/- ### The Reference module (src/unnamed/part_000, i.e. lib/ref.js) -/

inductive RefType where
  | value
  | global
  | localType
  deriving DecidableEq, Repr, Inhabited

/-- The `ancestor` field of a value reference: the sentinel `'root'` or a
non-negative depth (0 = the value itself, 1 = parent, ...). -/
inductive RefAncestor where
  | root
  | depth (n : Nat)
  deriving DecidableEq, Repr, Inhabited

/-- The reference object produced by `internals.Ref`.  The derived fields
`depth`/`key`/`root`/`display` of the source are recomputable from `path`
and are not stored.  `adjust` is an arbitrary pure transform (a function
value, carried verbatim); `map` is the entry array backing the JS `Map`
(whose lookup uses value equality). -/
structure Ref where
  type : RefType := .value
  ancestor : Option RefAncestor := none
  path : List String := []
  separator : Option Char := some '.'
  map : Option (List (JSValue × JSValue)) := none
  adjust : Option (JSValue → JSValue) := none
  iterables : Option Bool := none
  deriving Inhabited

/-- The `internals.Ref` constructor: its runtime `Hoek.assert`s that are not
already enforced by the embedding's types (separator shape, adjust/map being
a function/array are type-level here). -/
def Ref.make (ty : RefType) (anc : Option RefAncestor) (path : List String)
    (sep : Option Char) (map : Option (List (JSValue × JSValue)))
    (adjust : Option (JSValue → JSValue)) (iterables : Option Bool) :
    Except String Ref :=
  if map.isSome ∧ adjust.isSome then
    .error "Cannot set both map and adjust options"
  else if ty ≠ .value ∧ anc.isSome then
    .error "Non-value references cannot reference ancestors"
  else
    .ok { type := ty, ancestor := anc, path := path, separator := sep,
          map := map, adjust := adjust, iterables := iterables }

/-- `options.prefix` of `exports.create`. -/
structure PrefixOptions where
  globalP : Option String := none
  localP : Option String := none
  rootP : Option String := none

/-- Options accepted by `exports.create` (`Common.assertOptions` key check is
enforced by the record type; `separator := some none` is the JS
`separator: false`). -/
structure CreateOptions where
  adjust : Option (JSValue → JSValue) := none
  ancestor : Option Nat := none
  iterables : Option Bool := none
  map : Option (List (JSValue × JSValue)) := none
  prefixOpt : Option PrefixOptions := none
  separator : Option (Option Char) := none

/-- `internals.context(key, prefix)`: trims the key and strips the
global/local/root prefix (defaults `$`, `#`, `/`), reporting the reference
type and whether the root prefix was used. -/
def refContext (key : String) (prefixOpt : Option PrefixOptions) :
    String × RefType × Bool :=
  let key := jsTrim key
  let p := prefixOpt.getD {}
  let g := p.globalP.getD "$"
  if jsStartsWith key g then (jsDrop key g.data.length, .global, false)
  else
    let l := p.localP.getD "#"
    if jsStartsWith key l then (jsDrop key l.data.length, .localType, false)
    else
      let r := p.rootP.getD "/"
      if jsStartsWith key r then (jsDrop key r.data.length, .value, true)
      else (key, .value, false)

/-- Count of leading separator characters, used by `internals.ancestor`'s
`while (key[i] === separator)` loop. -/
def countSep (c : Char) : List Char → Nat
  | [] => 0
  | x :: rest => if x = c then countSep c rest + 1 else 0

/-- `internals.ancestor(key, separator)`: computes the `(ancestor, slice)`
pair from the leading separators of the key (`'a.b'` gives 1, `'.a.b'`
gives 0, `'...a'` gives 2, ...). -/
def Internals.ancestor (key : String) (sep : Option Char) : Nat × Nat :=
  match sep with
  | none => (1, 0)
  | some c =>
    match key.data with
    | [] => (1, 0)
    | k0 :: rest =>
      if k0 ≠ c then (1, 0)
      else
        match rest with
        | [] => (0, 1)
        | k1 :: rest2 =>
          if k1 ≠ c then (0, 1)
          else
            let i := 2 + countSep c rest2
            (i - 1, i)

/-- `exports.create(key, options)`: parses a string key into a reference.
The JS `key` variable becomes `null` at certain points; it is carried as an
`Option String`.  In the corner where the separator is disabled and the key
is `null`, the JS stores the path `[null]`; all later uses of that segment
(property lookup, join) coerce `null` to the string `"null"`, so the segment
is modelled as `"null"`. -/
def Ref.create (key : String) (options : CreateOptions := {}) :
    Except String Ref := do
  let sep : Option Char := options.separator.getD (some '.')
  let (k0, ty, isRoot) := refContext key options.prefixOpt
  let mut key? : Option String := some k0
  let mut anc : Option RefAncestor := options.ancestor.map RefAncestor.depth
  if ty = .value then
    if isRoot then
      if ¬(sep = none ∨ k0.data.head? ≠ sep) then
        throw "Cannot specify relative path with root prefix"
      anc := some .root
      if k0 = "" then
        key? := none
    let sepIsKey : Bool :=
      match sep, key? with
      | some c, some k => k.data = [c]
      | _, _ => false
    if sepIsKey then
      key? := none
      anc := some (.depth 0)
    else
      match anc with
      | some _ =>
        let keyFalsy := key? = none ∨ key? = some ""
        if ¬(sep = none ∨ keyFalsy ∨ (key?.bind (·.data.head?)) ≠ sep) then
          throw "Cannot combine prefix with ancestor option"
      | none =>
        let k := key?.getD ""
        let (a, sl) := Internals.ancestor k sep
        if sl ≠ 0 then
          let k2 := jsDrop k sl
          key? := if k2 = "" then none else some k2
        anc := some (.depth a)
  let path : List String :=
    match sep with
    | some c =>
      match key? with
      | none => []
      | some k => charSplit c k
    | none =>
      match key? with
      | some k => [k]
      | none => ["null"]
  Ref.make ty anc path sep options.map options.adjust options.iterables

/-- The per-validation shared context; only the coercion shadow map matters
to reference resolution.  The shadow is keyed by path. -/
structure Mainstay where
  shadow : Option (List (List String × JSValue)) := none

/-- The validation state threaded through `resolve` (`state.ancestors` is
innermost-first, as in the source: index 0 is the immediate parent). -/
structure ValState where
  ancestors : List JSValue := []
  mainstay : Option Mainstay := none

/-- Validation preferences: `context` is the global-reference target;
`convert` (default true) gates the coercion phase. -/
structure Prefs where
  context : JSValue := .undef
  convert : Bool := true

/-- `mainstay.shadow.get(path)`: `undefined` when the path is absent. -/
def shadowGet (sh : List (List String × JSValue)) (path : List String) :
    JSValue :=
  (((sh.find? (fun e => e.1 == path)).map (·.2)).getD .undef)

/-- `Ref.prototype._resolve(target, state, options)`: consult the coercion
shadow for value references, fall back to `Hoek.reach`, then apply `adjust`
and `map` (a `Map` hit replaces the value; a miss leaves it, `undefined`
included). -/
def Ref.resolveFrom (r : Ref) (target : JSValue) (state : ValState)
    (useShadow : Bool) : JSValue :=
  let fromShadow : JSValue :=
    if r.type = .value ∧ useShadow then
      match state.mainstay with
      | some m =>
        match m.shadow with
        | some sh => shadowGet sh r.path
        | none => .undef
      | none => .undef
    else .undef
  let resolved :=
    match fromShadow with
    | .undef => reach target r.path
    | v => v
  let resolved :=
    match r.adjust with
    | some f => f resolved
    | none => resolved
  match r.map with
  | some m =>
    match ((m.find? (fun e => e.1 == resolved)).map (·.2)).getD .undef with
    | .undef => resolved
    | mapped => mapped
  | none => resolved

/-- `Ref.prototype.resolve(value, state, prefs, local, options)`: dispatch on
the reference type and ancestor.  The `Hoek.assert` on excessive ancestor
depth becomes an `Except.error` (the source appends the reference display to
the message).  Resolution is a pure read: it returns the dereferenced value
and touches none of its inputs. -/
def Ref.resolve (r : Ref) (value : JSValue) (state : ValState) (prefs : Prefs)
    (localv : JSValue := .undef) (useShadow : Bool := true) :
    Except String JSValue :=
  if r.type = .global then .ok (r.resolveFrom prefs.context state useShadow)
  else if r.type = .localType then .ok (r.resolveFrom localv state useShadow)
  else
    match r.ancestor with
    | none => .ok (r.resolveFrom value state useShadow)
    | some (.depth 0) => .ok (r.resolveFrom value state useShadow)
    | some .root =>
      .ok (r.resolveFrom ((state.ancestors.getLast?).getD .undef) state useShadow)
    | some (.depth (n + 1)) =>
      if n + 1 ≤ state.ancestors.length then
        .ok (r.resolveFrom (state.ancestors.getD n .undef) state useShadow)
      else .error "Invalid reference exceeds the schema root"

/-- The plain descriptor emitted by `Ref.prototype.describe` (the source
wraps it as `{ ref: desc }`; the wrapper is omitted here).  `none` in an
outer `Option` means the key is absent from the descriptor. -/
structure RefDesc where
  path : List String
  type : Option RefType := none
  separator : Option (Option Char) := none
  ancestor : Option RefAncestor := none
  map : Option (List (JSValue × JSValue)) := none
  adjust : Option (JSValue → JSValue) := none
  iterables : Option Bool := none

/-- `Ref.prototype.describe()`: path always; type only when not `'value'`;
separator only when not the default `'.'`; ancestor only for value
references whose ancestor is not 1; map as its entry array; adjust and
iterables when not null. -/
def Ref.describe (r : Ref) : RefDesc :=
  { path := r.path
    type := if r.type = .value then none else some r.type
    separator := if r.separator = some '.' then none else some r.separator
    ancestor :=
      if r.type = .value ∧ r.ancestor ≠ some (.depth 1) then r.ancestor
      else none
    map := r.map
    adjust := r.adjust
    iterables := r.iterables }

/-- `exports.build(desc)`: merge the defaults, restore the implicit ancestor
default of 1 for value references, and run the constructor. -/
def Ref.build (desc : RefDesc) : Except String Ref :=
  let ty := desc.type.getD .value
  let sep := desc.separator.getD (some '.')
  let anc :=
    if ty = .value ∧ desc.ancestor = none then some (.depth 1)
    else desc.ancestor
  Ref.make ty anc desc.path sep desc.map desc.adjust desc.iterables

/-- Pairwise distinctness of the map's entry keys under JS value equality. -/
def mapKeysDistinct : List (JSValue × JSValue) → Bool
  | [] => true
  | (k, _) :: rest => rest.all (fun e => !(beqV k e.1)) && mapKeysDistinct rest

/-- Invariants every reference produced by `create` or `build` satisfies:
value references carry an ancestor and only they do (constructor assert),
`map` and `adjust` are mutually exclusive (constructor assert), and the map
entry array has no duplicate keys (the JS `Map` would silently drop
duplicates; the model's first-match lookup agrees with the JS map on
duplicate-free entries). -/
abbrev Ref.WellFormed (r : Ref) : Prop :=
  ((r.type = .value) ↔ (r.ancestor.isSome = true)) ∧
  ¬(r.map.isSome = true ∧ r.adjust.isSome = true) ∧
  (mapKeysDistinct (r.map.getD []) = true)

/- ### Shared rule helpers (lib/common.js is not under src/) -/

namespace Common

/-- Comparison operators recorded on parametrized length rules (`'>='` for
min, `'<='` for max, `'='` for length). -/
inductive CmpOp where
  | ge
  | le
  | eq
  deriving DecidableEq, Repr

/-- Modelled from the spec: `Common.compare` (lib/common.js, not under src/)
applies a length rule's recorded operator to the measured length and the
limit (§4.2 "operator/comparison metadata: records which comparison to
apply"). -/
def compare (a b : Nat) : CmpOp → Bool
  | .ge => decide (a ≥ b)
  | .le => decide (a ≤ b)
  | .eq => decide (a = b)

/-- Modelled from the spec: `Common.limit` (lib/common.js, not under src/) —
the predicate behind the length rules' "must be a positive integer" argument
assert: a non-negative integer number. -/
def limit (v : JSValue) : Bool :=
  match v with
  | .num n => decide (0 ≤ n)
  | _ => false

end Common

/- ### The string type module (src/lib/types/string/index.js) -/

/-- Buffer encodings for byte-length measurement; only utf8 is modelled
(`Buffer.byteLength(value, 'utf8')` is the string's UTF-8 byte count). -/
inductive Encoding where
  | utf8
  deriving DecidableEq, Repr

/-- A rule argument that is either a literal or a Reference, resolved late
(`Common.isResolvable`). -/
inductive LimitArg where
  | lit (v : JSValue)
  | refA (r : Ref)

inductive CaseDir where
  | lower
  | upper
  deriving DecidableEq, Repr

inductive NormForm where
  | NFC
  | NFD
  | NFKC
  | NFKD
  deriving DecidableEq, Repr

/-- A JS regular expression: its source and flags (data used by the
construction-time asserts) plus its matching behavior, which is supplied by
the external regex engine and carried as a function. -/
structure Regex where
  source : String := ""
  flags : List Char := []
  test : String → Bool := fun _ => false

/-- Ruleset entries of the string type that the claims exercise.  `length`
covers the min/max/length family (all dispatch to the `length` validate with
a recorded name and operator, source lines 510-556 and 816-821). -/
inductive StrRule where
  | length (name : String) (limit : LimitArg) (encoding : Option Encoding)
      (operator : Common.CmpOp)
  | caseR (direction : CaseDir)
  | trimR (enabled : Bool)
  | normalizeR (form : NormForm)
  | hexR (byteAligned : Bool)
  | isoDateR
  | patternR (regex : Regex) (invert : Bool) (nameOpt : Option String)
      (errorCode : String)

/-- A string schema node: the `truncate` flag, the `replacements` term
(null until the first `replace` call, then an array; patterns are modelled
as literal substrings since `replace` turns a string pattern into an escaped
global regex, i.e. replace-all of the literal) and the ordered ruleset. -/
structure StringSchema where
  truncate : Bool := false
  replacements : Option (List (String × String)) := none
  rules : List StrRule := []

/-- External runtime functions the string type calls out to: Unicode
normalization (`String.prototype.normalize`), the ISO-8601 format check
(`Common.isIsoDate`) and date parsing (`new Date(..).toISOString()`,
`none` when the date is invalid). -/
structure CoerceEnv where
  normalize : NormForm → String → String
  isIsoDate : String → Bool
  parseDate : String → Option String

/-- `schema.$_getRule('normalize')` (single rules are unique in a ruleset). -/
def StringSchema.getNormalize (s : StringSchema) : Option NormForm :=
  s.rules.findSome? fun r =>
    match r with
    | .normalizeR form => some form
    | _ => none

/-- `schema.$_getRule('case')`. -/
def StringSchema.getCase (s : StringSchema) : Option CaseDir :=
  s.rules.findSome? fun r =>
    match r with
    | .caseR d => some d
    | _ => none

/-- `schema.$_getRule('trim')` (the rule's `enabled` argument). -/
def StringSchema.getTrim (s : StringSchema) : Option Bool :=
  s.rules.findSome? fun r =>
    match r with
    | .trimR e => some e
    | _ => none

/-- `schema.$_getRule('hex')` (the rule's `byteAligned` option). -/
def StringSchema.getHex (s : StringSchema) : Option Bool :=
  s.rules.findSome? fun r =>
    match r with
    | .hexR b => some b
    | _ => none

/-- `schema.$_getRule('isoDate')`. -/
def StringSchema.hasIsoDate (s : StringSchema) : Bool :=
  s.rules.any fun r =>
    match r with
    | .isoDateR => true
    | _ => false

/-- `schema.$_getRule('max')`: the length-family rule named `max`. -/
def StringSchema.getMax (s : StringSchema) :
    Option (LimitArg × Option Encoding × Common.CmpOp) :=
  s.rules.findSome? fun r =>
    match r with
    | .length name limit enc op =>
      if name = "max" then some (limit, enc, op) else none
    | _ => none

/-- JavaScript `value.slice(0, limit)` with a JS value as end index: a
non-negative number keeps that many leading characters, a negative number
counts from the end, `undefined` keeps the whole string (other end-index
values cannot reach the call: the limit argument is asserted or
`Common.limit`-checked first). -/
def jsSliceTo (value : String) (limit : JSValue) : String :=
  match limit with
  | .num n =>
    if 0 ≤ n then jsTake value n.toNat
    else jsTake value (value.data.length - min value.data.length n.natAbs)
  | _ => value

/-- An error entry collected during validation: a `Errors.Report` with its
code and context, or a non-Report error object (e.g. a finalized child
ValidationError), distinguished by the alternatives aggregation. -/
inductive ErrItem where
  | report (code : String) (ctx : List (String × JSValue))
  | nonReport

/-- The raw `args.limit` placed in a length error's context: the literal, or
the Reference object itself (carried opaquely; no claim inspects it, so it
is modelled as `undefined`). -/
def limitCtxJS : LimitArg → JSValue
  | .lit v => v
  | .refA _ => (.undef)

/-- The `encoding` context entry of a length error. -/
def encJS : Option Encoding → JSValue
  | some .utf8 => .str "utf8"
  | none => (.undef)

/-- Extract the numeric limit (only consulted after `Common.limit` held or
after the attachment-time assert on a literal). -/
def jsToNat : JSValue → Nat
  | .num n => n.toNat
  | _ => 0

/-- Modelled from the spec: §4.2 — the rule driver (base.js, not under src/)
resolves a Reference argument against current state immediately before the
rule's validate and reports `any.ref` when the resolved value fails the
argument's assert; a literal argument was already asserted at attachment
time. -/
def resolveRuleLimit (limit : LimitArg) (value : String) (st : ValState)
    (p : Prefs) : Except String (JSValue × Option ErrItem) :=
  match limit with
  | .lit v => .ok (v, none)
  | .refA r => do
    let lv ← r.resolve (.str value) st p
    if Common.limit lv then .ok (lv, none)
    else
      .ok (lv, some (.report "any.ref"
        [("arg", .str "limit"), ("reason", .str "must be a positive integer")]))

/-- The `/^[a-f0-9]+$/i` test of the hex rule. -/
def hexTest (value : String) : Bool :=
  !value.data.isEmpty &&
    value.data.all fun c => c.isDigit || ('a' ≤ c.toLower && c.toLower ≤ 'f')

/-- One ruleset entry's validate function (source: the `validate` members of
`rules.length`, `rules.case`, `rules.trim`, `rules.normalize`, `rules.hex`,
`rules.isoDate`, `rules.pattern`); returns `none` on pass or the produced
error.  Reference resolution may throw (ancestor overflow). -/
def strRuleValidate (env : CoerceEnv) (r : StrRule) (value : String)
    (st : ValState) (p : Prefs) : Except String (Option ErrItem) :=
  match r with
  | .length name limit enc op =>
    match resolveRuleLimit limit value st p with
    | .error e => .error e
    | .ok (_, some e) => .ok (some e)
    | .ok (lv, none) =>
      let n := jsToNat lv
      let len :=
        match enc with
        | some _ => value.utf8ByteSize
        | none => value.data.length
      if Common.compare len n op then .ok none
      else
        .ok (some (.report ("string." ++ name)
          [("limit", limitCtxJS limit), ("value", .str value),
           ("encoding", encJS enc)]))
  | .caseR d =>
    match d with
    | .lower =>
      if value = value.toLower then .ok none
      else .ok (some (.report "string.lowercase" []))
    | .upper =>
      if value = value.toUpper then .ok none
      else .ok (some (.report "string.uppercase" []))
  | .trimR enabled =>
    if !enabled || value = jsTrim value then .ok none
    else .ok (some (.report "string.trim" []))
  | .normalizeR form =>
    if value = env.normalize form value then .ok none
    else .ok (some (.report "string.normalize" [("value", .str value)]))
  | .hexR byteAligned =>
    if !hexTest value then .ok (some (.report "string.hex" []))
    else if byteAligned && value.data.length % 2 ≠ 0 then
      .ok (some (.report "string.hexAlign" []))
    else .ok none
  | .isoDateR =>
    if env.isIsoDate value then .ok none
    else .ok (some (.report "string.isoDate" []))
  | .patternR regex invert nameOpt errorCode =>
    if regex.test value ≠ invert then .ok none
    else
      .ok (some (.report errorCode
        [("name", match nameOpt with | some n => .str n | none => .undef),
         ("regex", .str regex.source), ("value", .str value)]))

/-- Run the ruleset in attachment order, stopping at the first error
(default `abortEarly`; all the modelled rules are fatal). -/
def runStrRules (env : CoerceEnv) (rules : List StrRule) (value : String)
    (st : ValState) (p : Prefs) : Except String (Option ErrItem) :=
  match rules with
  | [] => .ok none
  | r :: rest =>
    match strRuleValidate env r value st p with
    | .error e => .error e
    | .ok (some e) => .ok (some e)
    | .ok none => runStrRules env rest value st p

/-- A validation result: the (possibly transformed) value and the collected
errors, `none` meaning success (the source's falsy `result.errors`). -/
structure VRes where
  value : JSValue
  errors : Option (List ErrItem) := none

/-- The string base validate hook (source lines 139-148: non-strings fail
`string.base`, the empty string fails `string.empty`) followed by ruleset
execution.  Modelled from the spec: the surrounding `$_validate` driver
(base.js, not under src/) runs the base validate hook and then each ruleset
entry in order, stopping at the first fatal error (§4.2, §4.4). -/
def stringValidate (env : CoerceEnv) (s : StringSchema) (v : JSValue)
    (st : ValState) (p : Prefs) : Except String VRes :=
  match v with
  | .str str =>
    if str = "" then .ok { value := v, errors := some [.report "string.empty" []] }
    else
      match runStrRules env s.rules str st p with
      | .error e => .error e
      | .ok none => .ok { value := .str str }
      | .ok (some e) => .ok { value := .str str, errors := some [e] }
  | _ => .ok { value := v, errors := some [.report "string.base" []] }

/-- A coercion result (source `coerce.method` returns `{ value }` or
`{ value, errors }`). -/
structure CoerceRes where
  value : String
  errors : Option (List ErrItem) := none

/-- The truncate step of the string coerce hook (source lines 118-131): when
the `truncate` flag is set and a `max` rule exists, slice the value to the
limit; a Reference limit is resolved first and must satisfy `Common.limit`,
else the result is an `any.ref` error. -/
def stringCoerceTruncate (s : StringSchema) (value : String) (st : ValState)
    (p : Prefs) : Except String CoerceRes :=
  if s.truncate then
    match s.getMax with
    | some (limit, _, _) =>
      match limit with
      | .lit lv => .ok { value := jsSliceTo value lv }
      | .refA r =>
        match r.resolve (.str value) st p with
        | .error e => .error e
        | .ok lv =>
          if Common.limit lv then .ok { value := jsSliceTo value lv }
          else
            .ok { value := value, errors := some [.report "any.ref"
              [("arg", .str "limit"),
               ("reason", .str "must be a positive integer")]] }
    | none => .ok { value := value }
  else .ok { value := value }

/-- The value-transform prefix of the string coerce hook (source lines
70-101): the sequential reassignments of `value`, in this fixed order —
normalize, then case, then trim, then the replacements in order, then hex
zero-padding. -/
def stringPre (env : CoerceEnv) (s : StringSchema) (value : String) : String :=
  let value :=
    match s.getNormalize with
    | some form => env.normalize form value
    | none => value
  let value :=
    match s.getCase with
    | some .upper => value.toUpper
    | some .lower => value.toLower
    | none => value
  let value := if s.getTrim.getD false then jsTrim value else value
  let value :=
    match s.replacements with
    | some rs => rs.foldl (fun v pr => v.replace pr.1 pr.2) value
    | none => value
  match s.getHex with
  | some ba => if ba && value.data.length % 2 ≠ 0 then "0" ++ value else value
  | none => value

/-- The string coerce hook (source lines 68-134), applied to string inputs
when `prefs.convert` is set: the `stringPre` transforms, then the isoDate
rewrite (which can produce a `string.isoDate` error), then truncation. -/
def stringCoerce (env : CoerceEnv) (s : StringSchema) (value : String)
    (st : ValState) (p : Prefs) : Except String CoerceRes :=
  let value := stringPre env s value
  if s.hasIsoDate then
    if env.isIsoDate value then
      match env.parseDate value with
      | some iso => stringCoerceTruncate s iso st p
      | none => .ok { value := value, errors := some [.report "string.isoDate" []] }
    else .ok { value := value, errors := some [.report "string.isoDate" []] }
  else stringCoerceTruncate s value st p

/-- The full string pipeline for one node.  Modelled from the spec: §4.4 —
under `prefs.convert` the coerce hook runs first (only on values of the
hook's `from` type, i.e. strings), then the base validate hook and the
ruleset (base.js, the driver, is not under src/). -/
def stringFull (env : CoerceEnv) (s : StringSchema) (v : JSValue)
    (st : ValState) (p : Prefs) : Except String VRes :=
  match v with
  | .str str =>
    if p.convert then do
      let c ← stringCoerce env s str st p
      match c.errors with
      | some es => .ok { value := .str c.value, errors := some es }
      | none => stringValidate env s (.str c.value) st p
    else stringValidate env s v st p
  | _ => stringValidate env s v st p

/- ### The alternatives type module (src/lib/types/alternatives.js) -/

/-- The leaf schemas appearing as alternatives branches in the claims.
Modelled from the spec for number and boolean: those leaf type modules are
out of scope of the core (§1) and not under src/; their base validate
rejects a value of the wrong fundamental kind with the type's `base` error
code (§4.4 step 5). -/
inductive BranchKind where
  | numberB
  | booleanB
  | stringB (s : StringSchema)

/-- A compiled branch schema with its label flag (the only flag the claims
observe). -/
structure Branch where
  kind : BranchKind
  label : Option String := none

/-- The behavior of a compiled `is`/`peek` condition schema's `$_match`:
supplied as a function since `$_compile`/`$_match` live in base.js (not
under src/). -/
def MatchFn := JSValue → Bool

/-- One entry of `schema.$_terms.matches`: a `try` branch (`{ schema }`) or
a `when` condition (`{ ref, peek, is, then, otherwise }`). -/
inductive AltMatch where
  | schemaM (b : Branch)
  | condM (ref : Option Ref) (peek : Option MatchFn) (isC : Option MatchFn)
      (thenB : Option Branch) (otherwiseB : Option Branch)

/-- An alternatives schema node: its label flag, the `_endedSwitch` internal
flag, and the matches term. -/
structure AltSchema where
  label : Option String := none
  endedSwitch : Bool := false
  matchesT : List AltMatch := []

/-- Validate one branch schema. -/
def branchValidate (env : CoerceEnv) (b : Branch) (v : JSValue)
    (st : ValState) (p : Prefs) : Except String VRes :=
  match b.kind with
  | .numberB =>
    match v with
    | .num _ => .ok { value := v }
    | _ => .ok { value := v, errors := some [.report "number.base" []] }
  | .booleanB =>
    match v with
    | .boolean _ => .ok { value := v }
    | _ => .ok { value := v, errors := some [.report "boolean.base" []] }
  | .stringB s => stringFull env s v st p

/-- The error payload of a failed alternatives validation (source lines
60-90): the collected errors passed through unchanged, or one of the three
aggregate codes `alternatives.base`, `alternatives.types` (with the branch
type names) and `alternatives.match` (with the details of all collected
errors). -/
inductive AltErrors where
  | passthrough (errs : List ErrItem)
  | base
  | types (ts : List String)
  | matched (details : List ErrItem)

/-- The outcome of the alternatives base validate: a successful branch's
result, or a failure payload. -/
inductive AltOutcome where
  | success (value : JSValue)
  | failure (e : AltErrors)

/-- The per-error step of the "all rules are base types" scan (source lines
74-86): `report.code.split('.')` must have `'base'` as its second element;
collects the first element (the type name).  A non-Report entry or any
other code aborts the scan. -/
def typesOf : List ErrItem → Option (List String)
  | [] => some []
  | .nonReport :: _ => none
  | .report c _ :: rest =>
    let parts := charSplit '.' c
    if parts.get? 1 = some "base" then
      (typesOf rest).map fun ts => parts.headD "" :: ts
    else none

/-- The post-loop aggregation of the alternatives base validate (source
lines 60-90): no collected error gives `alternatives.base`; exactly one is
returned unchanged; all base-type errors give `alternatives.types`;
otherwise `alternatives.match` with all the details. -/
def altAggregate (errors : List ErrItem) : AltErrors :=
  match errors with
  | [] => .base
  | [e] => .passthrough [e]
  | _ =>
    match typesOf errors with
    | some ts => .types ts
    | none => .matched errors

/-- A branch result returned directly from the match loop (a fired `then` or
`otherwise`, source lines 52 and 56, is returned verbatim, not aggregated). -/
def resToOutcome (res : VRes) : AltOutcome :=
  match res.errors with
  | none => .success res.value
  | some es => .failure (.passthrough es)

/-- The match loop of the alternatives base validate (source lines 35-58):
`try` branches short-circuit on the first success and otherwise contribute
their errors; `when` conditions evaluate `peek || is` against the condition
input (the resolved `ref` for `is` conditions, the value itself for `peek`)
and on a fired `then`/`otherwise` return that branch's result directly.
The two `TypeError` arms are unreachable for matches built by `try`/`when`.
After the loop the collected errors are aggregated. -/
def altLoop (env : CoerceEnv) (v : JSValue) (st : ValState) (p : Prefs) :
    List AltMatch → List ErrItem → Except String AltOutcome
  | [], errors => .ok (.failure (altAggregate errors))
  | .schemaM b :: rest, errors => do
    let result ← branchValidate env b v st p
    match result.errors with
    | none => .ok (.success result.value)
    | some es => altLoop env v st p rest (errors ++ es)
  | .condM ref peek isC thenB otherwiseB :: rest, errors => do
    let isF ←
      match peek with
      | some f => pure f
      | none =>
        match isC with
        | some f => pure f
        | none => .error "TypeError"
    let input ←
      if isC.isSome then
        match ref with
        | some r => r.resolve v st p
        | none => .error "TypeError"
      else pure v
    if !isF input then
      match otherwiseB with
      | some o => do
        let res ← branchValidate env o v st p
        .ok (resToOutcome res)
      | none => altLoop env v st p rest errors
    else
      match thenB with
      | some t => do
        let res ← branchValidate env t v st p
        .ok (resToOutcome res)
      | none => altLoop env v st p rest errors

/-- The alternatives base validate (source lines 33-91). -/
def altValidate (env : CoerceEnv) (s : AltSchema) (v : JSValue)
    (st : ValState) (p : Prefs) : Except String AltOutcome :=
  altLoop env v st p s.matchesT []

/- ### Builder methods as heap operations -/

instance : Inhabited StringSchema := ⟨{}⟩

instance : Inhabited AltSchema := ⟨{}⟩

/-- Schema objects live in a store (the JS heap, addresses are list
indices); a builder call reads the receiver, clones it (spec §4.3: a
shallow structural clone with fresh term sub-structures — base.js's `clone`
is not under src/), mutates only the clone and returns the clone's fresh
address, so the net effect on the store is appending the finished clone. -/
def storeGet [Inhabited α] (st : List α) (i : Nat) : α := (st.get? i).getD default

/-- JS truthiness of an embedded value. -/
def truthy : JSValue → Bool
  | .undef => false
  | .null => false
  | .boolean b => b
  | .num n => decide (n ≠ 0)
  | .str s => decide (s ≠ "")
  | .arr _ => true
  | .obj _ => true

/-- Modelled from the spec: `Common.assertOptions` (lib/common.js, not under
src/) throws when an options object contains a key outside the allowed list
(the "unknown option key" construction error of §7). -/
def Common.assertOptions (fields : List (String × JSValue))
    (allowed : List String) : Except String Unit :=
  let unknown := (fields.map (·.1)).filter fun k => !allowed.contains k
  if unknown.isEmpty then .ok ()
  else .error ("Options contain unknown keys: " ++ String.intercalate "," unknown)

/-- `rules.replace.method` (string/index.js lines 606-625): clone, create
the replacements array if still null, push the pair.  A string pattern is
converted to an escaped global regex, i.e. literal replace-all; the typed
arguments make the two `Hoek.assert`s vacuous, so the call cannot throw. -/
def replaceOpS (st : List StringSchema) (self : Nat) (pattern repl : String) :
    List StringSchema × Nat :=
  let recv := storeGet st self
  let obj := { recv with
    replacements := some ((recv.replacements.getD []) ++ [(pattern, repl)]) }
  (st ++ [obj], st.length)

/-- The options argument of `rules.pattern.method`: a plain name string or
an open options object (kept as a field list so the unknown-key assert is
observable). -/
inductive PatternOptions where
  | nameStr (s : String)
  | object (fields : List (String × JSValue))

/-- `rules.pattern.method` (string/index.js lines 576-604): assert the regex
carries neither the global nor the sticky flag, normalize a string options
argument to `{ name }`, assert the option keys, compute the error code and
append the rule (`multi: true`, so re-adding appends; spec §4.2). -/
def patternOpS (st : List StringSchema) (self : Nat) (regex : Regex)
    (options : PatternOptions) : Except String (List StringSchema × Nat) :=
  if regex.flags.contains 'g' || regex.flags.contains 'y' then
    .error "regex should not use global or sticky mode"
  else
    let fields :=
      match options with
      | .nameStr s => [("name", JSValue.str s)]
      | .object fs => fs
    match Common.assertOptions fields ["invert", "name"] with
    | .error e => .error e
    | .ok _ =>
      let recv := storeGet st self
      let invertV := ((fields.find? (fun f => f.1 == "invert")).map (·.2)).getD .undef
      let nameV := ((fields.find? (fun f => f.1 == "name")).map (·.2)).getD .undef
      let errorCode := "string.pattern" ++ (if truthy invertV then ".invert" else "")
        ++ (if truthy nameV then ".name" else ".base")
      let nameOpt :=
        match nameV with
        | .str s => some s
        | _ => none
      let rule := StrRule.patternR regex (truthy invertV) nameOpt errorCode
      let obj := { recv with rules := recv.rules ++ [rule] }
      .ok (st ++ [obj], st.length)

/-- `rules.try.method` (alternatives.js lines 97-114): assert schemas are
present, assert the switch has not ended, clone, compile and push each
branch, rebuild.  `$_mutateRebuild` re-registers references and recomputes
the `_arrayItems` flag; with no array-typed branches in the model it leaves
the clone unchanged.  A `none` argument is the JS missing argument (an
empty array is truthy and passes the first assert). -/
def tryOpS (st : List AltSchema) (self : Nat)
    (schemas : Option (List Branch)) : Except String (List AltSchema × Nat) :=
  match schemas with
  | none => .error "Missing alternative schemas"
  | some list =>
    let recv := storeGet st self
    if recv.endedSwitch then .error "Unreachable condition"
    else
      let obj := { recv with
        matchesT := recv.matchesT ++ list.map AltMatch.schemaM }
      .ok (st ++ [obj], st.length)

/-- `branch.label(name)`: sets the label flag on a branch schema, producing
a new node (spec §4.3 `$_setFlag`; base.js is not under src/). -/
def Branch.setLabel (b : Branch) (name : String) : Branch :=
  { b with label := some name }

/-- The per-match relabeling of `overrides.label` (alternatives.js lines
124-140): a `try` branch is rewrapped with the relabeled schema; a
condition match is copied with relabeled `then`/`otherwise`. -/
def relabelMatch (name : String) : AltMatch → AltMatch
  | .schemaM b => .schemaM (b.setLabel name)
  | .condM ref peek isC thenB otherwiseB =>
    .condM ref peek isC (thenB.map (fun b => b.setLabel name))
      (otherwiseB.map (fun b => b.setLabel name))

/-- `overrides.label` (alternatives.js lines 121-143): `this.super.label`
clones the receiver with the label flag set (spec §4.3: every builder
operation returns a new node), then the clone's matches list is replaced by
the relabeled list (`Array.prototype.map` allocates a fresh array). -/
def labelOpS (st : List AltSchema) (self : Nat) (name : String) :
    List AltSchema × Nat :=
  let recv := storeGet st self
  let withFlag := { recv with label := some name }
  let obj := { withFlag with matchesT := withFlag.matchesT.map (relabelMatch name) }
  (st ++ [obj], st.length)

/-- The `condition` argument of `when`: a reference, a string key, or a
schema condition (the `Hoek.assert` on its shape is enforced by the type). -/
inductive WhenCondition where
  | cref (r : Ref)
  | ckey (k : String)
  | cschema (peek : MatchFn)

/-- One entry of a `when` switch statement. -/
structure SwitchCase where
  isC : Option MatchFn := none
  thenB : Option Branch := none
  otherwiseB : Option Branch := none

/-- The options of `when` (`Common.assertOptions` on the four known keys is
enforced by the record type; `switchC` is the `switch` array, also produced
by the `when(cond, [cases])` shorthand). -/
structure WhenOptions where
  isC : Option MatchFn := none
  thenB : Option Branch := none
  otherwiseB : Option Branch := none
  switchC : Option (List SwitchCase) := none

/-- The `normalize` closure of `overrides.when` (alternatives.js lines
186-213) without its flag side effect: build the match item.  `Compile.ref`
(lib/compile.js, not under src/) passes a reference through and wraps a
string key via `Ref.create`; the `is` option's compilation and implicit
`.required()` are inside the supplied match function. -/
def normalizeWhen (cond : WhenCondition) (isC : Option MatchFn)
    (thenB otherwiseB : Option Branch) : Except String AltMatch :=
  match cond with
  | .cschema f => .ok (.condM none (some f) isC thenB otherwiseB)
  | .cref r => .ok (.condM (some r) none isC thenB otherwiseB)
  | .ckey k =>
    (Ref.create k {}).map fun r => .condM (some r) none isC thenB otherwiseB

/-- The switch-statement loop of `overrides.when` (lines 224-243): every
case must have `is` and `then`; only the last may carry `otherwise` (on an
earlier case it is an unknown key to that case's `assertOptions`), and an
`otherwise` may come from the outer options or the last case but not both.
Returns the new match items and whether the last case ended the switch. -/
def whenSwitchLoop (cond : WhenCondition) (outerOtherwise : Option Branch) :
    List SwitchCase → Except String (List AltMatch × Bool)
  | [] => .ok ([], false)
  | [test] =>
    if test.isC.isNone then .error "Switch statement missing \"is\""
    else if test.thenB.isNone then .error "Switch statement missing \"then\""
    else if outerOtherwise.isSome && test.otherwiseB.isSome then
      .error "Cannot specify \"otherwise\" inside and outside a \"switch\""
    else
      let ow := if outerOtherwise.isSome then outerOtherwise else test.otherwiseB
      (normalizeWhen cond test.isC test.thenB ow).map
        fun item => ([item], test.thenB.isSome && ow.isSome)
  | test :: next :: rest =>
    if test.isC.isNone then .error "Switch statement missing \"is\""
    else if test.thenB.isNone then .error "Switch statement missing \"then\""
    else if test.otherwiseB.isSome then
      .error "Options contain unknown keys: otherwise"
    else
      match normalizeWhen cond test.isC test.thenB none with
      | .error e => .error e
      | .ok item =>
        (whenSwitchLoop cond outerOtherwise (next :: rest)).map
          fun pr => (item :: pr.1, pr.2)

/-- `overrides.when` (alternatives.js lines 165-246): the construction-time
asserts in source order, then the single-case push or the switch loop; a
case supplying both `then` and `otherwise` sets the `_endedSwitch` flag on
the clone. -/
def whenOpS (st : List AltSchema) (self : Nat) (cond : WhenCondition)
    (options : WhenOptions) : Except String (List AltSchema × Nat) :=
  let recv := storeGet st self
  let schemaCondition :=
    match cond with
    | .cschema _ => true
    | _ => false
  if recv.endedSwitch then .error "Unreachable condition"
  else if options.switchC.isSome && options.isC.isSome then
    .error "Cannot combine \"switch\" with \"is\""
  else if options.switchC.isSome && options.thenB.isSome then
    .error "Cannot combine \"switch\" with \"then\""
  else if options.switchC.isNone && options.thenB.isNone && options.otherwiseB.isNone then
    .error "options must have at least one of \"then\", \"otherwise\", or \"switch\""
  else if schemaCondition && options.isC.isSome then
    .error "\"is\" can not be used with a schema condition"
  else if schemaCondition && options.switchC.isSome then
    .error "\"switch\" can not be used with a schema condition"
  else if !schemaCondition && options.isC.isNone && options.switchC.isNone then
    .error "Missing \"is\" or \"switch\" option"
  else
    match options.switchC with
    | none =>
      (normalizeWhen cond options.isC options.thenB options.otherwiseB).map fun item =>
        let ended := options.thenB.isSome && options.otherwiseB.isSome
        let obj :=
          { recv with
            matchesT := recv.matchesT ++ [item]
            endedSwitch := recv.endedSwitch || ended }
        (st ++ [obj], st.length)
    | some cases =>
      (whenSwitchLoop cond options.otherwiseB cases).map fun pr =>
        let obj :=
          { recv with
            matchesT := recv.matchesT ++ pr.1
            endedSwitch := recv.endedSwitch || pr.2 }
        (st ++ [obj], st.length)

/-- Modelled from the spec: §4.6 — a string node's plain descriptor (type,
flags, rules, terms); base.js's generic `describe` is not under src/.  It
captures every observable field of the modelled string node. -/
structure StrDesc where
  typeName : String
  truncateFlag : Bool
  rules : List StrRule
  replacements : Option (List (String × String))

/-- Describe a string schema node. -/
def describeStr (s : StringSchema) : StrDesc :=
  { typeName := "string", truncateFlag := s.truncate, rules := s.rules,
    replacements := s.replacements }

/-- Modelled from the spec: §4.6 — an alternatives node's plain descriptor. -/
structure AltDesc where
  typeName : String
  labelFlag : Option String
  endedSwitchFlag : Bool
  matchesDesc : List AltMatch

/-- Describe an alternatives schema node. -/
def describeAlt (s : AltSchema) : AltDesc :=
  { typeName := "alternatives", labelFlag := s.label,
    endedSwitchFlag := s.endedSwitch, matchesDesc := s.matchesT }

/- ### Concrete instances used by the theorems below -/

/-- A concrete external environment: identity Unicode normalization, no
string is an ISO date. -/
def envId : CoerceEnv :=
  { normalize := fun _ s => s, isIsoDate := fun _ => false,
    parseDate := fun _ => none }

/-- The reference produced by `create('...x')` (proved below). -/
def refTripleDot : Ref :=
  { type := .value, ancestor := some (.depth 2), path := ["x"] }

/-- A value reference with a longer path and a map, exercising the
describe/build round trip. -/
def refWitnessC3 : Ref :=
  { type := .value, ancestor := some (.depth 2), path := ["x", "y"],
    map := some [(.str "a", .num 1)] }

/-- The string schema `string().min(2)` (the `min` method records a `length`
rule named `min` with operator `>=`, source lines 550-556 and 816-821). -/
def strMin2 : StringSchema := { rules := [.length "min" (.lit (.num 2)) none .ge] }

/-- The string schema `string().min(3)`. -/
def strMin3 : StringSchema := { rules := [.length "min" (.lit (.num 3)) none .ge] }

/-- The alternatives schema `alternatives().try(number, string.min(3))`. -/
def altNS : AltSchema :=
  { matchesT := [.schemaM ⟨.numberB, none⟩, .schemaM ⟨.stringB strMin3, none⟩] }

/-- The string schema `string().max(2).truncate()`. -/
def truncSchema : StringSchema :=
  { truncate := true, rules := [.length "max" (.lit (.num 2)) none .le] }

/-- A global reference to the context key `x`. -/
def refLimit : Ref := { type := .global, path := ["x"] }

/-- The string schema `string().max(ref('$x')).truncate()`. -/
def truncRefSchema : StringSchema :=
  { truncate := true, rules := [.length "max" (.refA refLimit) none .le] }

/-- A schema condition whose `$_match` always succeeds. -/
def condT : WhenCondition := .cschema (fun _ => true)

/-- `when` options supplying both `then` and `otherwise`. -/
def optTO : WhenOptions :=
  { thenB := some ⟨.numberB, none⟩, otherwiseB := some ⟨.booleanB, none⟩ }

/-- The store after `alternatives().when(condT, optTO)` on a fresh node. -/
def altEndedStore : List AltSchema :=
  [{}, { endedSwitch := true,
         matchesT := [.condM none (some (fun _ => true)) none
           (some ⟨.numberB, none⟩) (some ⟨.booleanB, none⟩)] }]

/-- A regex value carrying the global flag. -/
def gRegex : Regex := { source := "x", flags := ['g'] }

/-- Concrete references of each dispatch class. -/
def gRef : Ref := { type := .global, path := ["g"] }

/-- A local reference. -/
def lRef : Ref := { type := .localType, path := ["l"] }

/-- A self (depth 0) value reference. -/
def selfRef : Ref := { type := .value, ancestor := some (.depth 0), path := ["a"] }

/-- A root-prefixed value reference. -/
def rootRef : Ref := { type := .value, ancestor := some .root, path := ["r"] }

/-- A parent (depth 1) value reference. -/
def parentRef : Ref := { type := .value, ancestor := some (.depth 1), path := ["p"] }

/- ### Helper lemmas -/

/-- Appending a fresh object to the store does not change existing slots. -/
theorem storeGet_append_lt [Inhabited α] (st : List α) (v : α) (i : Nat)
    (h : i < st.length) : storeGet (st ++ [v]) i = storeGet st i := by
  unfold storeGet
  rw [List.get?_append h]

/-- The fresh slot holds the appended object. -/
theorem storeGet_append_self [Inhabited α] (st : List α) (v : α) :
    storeGet (st ++ [v]) st.length = v := by
  unfold storeGet
  rw [List.get?_append_right (le_refl _)]
  simp

/-- Rebuilding a well-formed reference from its descriptor restores it
exactly: the defaults merged by `build` (type `value`, separator `'.'`,
ancestor 1 for value references) are precisely the fields `describe`
omitted. -/
theorem build_describe_ok (r : Ref) (h : r.WellFormed) :
    Ref.build r.describe = .ok r := by
  obtain ⟨hAnc, hMA, _⟩ := h
  cases r with
  | mk ty anc path sep map adj iter =>
    simp only at hAnc hMA
    cases ty with
    | value =>
      have hs : anc.isSome = true := hAnc.mp rfl
      match anc, hs with
      | some a, _ =>
        by_cases h1 : some a = some (RefAncestor.depth 1)
        · by_cases hsep : sep = some '.'
          · simp [Ref.describe, Ref.build, Ref.make, h1, hsep, hMA]
          · simp [Ref.describe, Ref.build, Ref.make, h1, hsep, hMA]
        · by_cases hsep : sep = some '.'
          · simp [Ref.describe, Ref.build, Ref.make, h1, hsep, hMA]
          · simp [Ref.describe, Ref.build, Ref.make, h1, hsep, hMA]
    | global =>
      have hn : anc = none := by
        cases anc with
        | none => rfl
        | some a => simp at hAnc
      by_cases hsep : sep = some '.'
      · simp [Ref.describe, Ref.build, Ref.make, hn, hsep, hMA]
      · simp [Ref.describe, Ref.build, Ref.make, hn, hsep, hMA]
    | localType =>
      have hn : anc = none := by
        cases anc with
        | none => rfl
        | some a => simp at hAnc
      by_cases hsep : sep = some '.'
      · simp [Ref.describe, Ref.build, Ref.make, hn, hsep, hMA]
      · simp [Ref.describe, Ref.build, Ref.make, hn, hsep, hMA]

/-- A successful `try` call appends exactly one object to the store and
returns its address. -/
theorem tryOpS_ok_shape {st : List AltSchema} {self : Nat}
    {schemas : Option (List Branch)} {st2 : List AltSchema} {i : Nat}
    (h : tryOpS st self schemas = .ok (st2, i)) :
    ∃ obj, st2 = st ++ [obj] ∧ i = st.length := by
  unfold tryOpS at h
  match schemas with
  | none => exact Except.noConfusion h
  | some list =>
    simp only at h
    split at h
    · exact Except.noConfusion h
    · simp only [Except.ok.injEq, Prod.mk.injEq] at h
      exact ⟨_, h.1.symm, h.2.symm⟩

/-- A successful `when` call appends exactly one object to the store and
returns its address. -/
theorem whenOpS_ok_shape {st : List AltSchema} {self : Nat}
    {cond : WhenCondition} {options : WhenOptions} {st2 : List AltSchema} {i : Nat}
    (h : whenOpS st self cond options = .ok (st2, i)) :
    ∃ obj, st2 = st ++ [obj] ∧ i = st.length := by
  unfold whenOpS at h
  simp only at h
  split at h
  · exact Except.noConfusion h
  split at h
  · exact Except.noConfusion h
  split at h
  · exact Except.noConfusion h
  split at h
  · exact Except.noConfusion h
  split at h
  · exact Except.noConfusion h
  split at h
  · exact Except.noConfusion h
  split at h
  · exact Except.noConfusion h
  split at h
  · cases hn : normalizeWhen cond options.isC options.thenB options.otherwiseB with
    | error e => rw [hn] at h; exact Except.noConfusion h
    | ok item =>
      rw [hn] at h
      simp only [Except.map, Except.ok.injEq, Prod.mk.injEq] at h
      exact ⟨_, h.1.symm, h.2.symm⟩
  · rename_i cs hsw
    cases hn : whenSwitchLoop cond options.otherwiseB cs with
    | error e => rw [hn] at h; exact Except.noConfusion h
    | ok pr =>
      rw [hn] at h
      simp only [Except.map, Except.ok.injEq, Prod.mk.injEq] at h
      exact ⟨_, h.1.symm, h.2.symm⟩

/-- A successful single-case `when` appends the clone with the new match
item and the updated ended-switch flag. -/
theorem whenOpS_single_inv {st : List AltSchema} {self : Nat}
    {cond : WhenCondition} {options : WhenOptions} {st2 : List AltSchema} {i : Nat}
    (hsw : options.switchC = none)
    (h : whenOpS st self cond options = .ok (st2, i)) :
    ∃ item, st2 = st ++ [{ storeGet st self with
        matchesT := (storeGet st self).matchesT ++ [item]
        endedSwitch := (storeGet st self).endedSwitch ||
          (options.thenB.isSome && options.otherwiseB.isSome) }] ∧
      i = st.length := by
  unfold whenOpS at h
  simp only at h
  split at h
  · exact Except.noConfusion h
  split at h
  · exact Except.noConfusion h
  split at h
  · exact Except.noConfusion h
  split at h
  · exact Except.noConfusion h
  split at h
  · exact Except.noConfusion h
  split at h
  · exact Except.noConfusion h
  split at h
  · exact Except.noConfusion h
  split at h
  · cases hn : normalizeWhen cond options.isC options.thenB options.otherwiseB with
    | error e => rw [hn] at h; exact Except.noConfusion h
    | ok item =>
      rw [hn] at h
      simp only [Except.map, Except.ok.injEq, Prod.mk.injEq] at h
      exact ⟨item, h.1.symm, h.2.symm⟩
  · rename_i cs hcs
    rw [hsw] at hcs
    exact Option.noConfusion hcs

/-- Splitting after an unseparated prefix peels off that prefix. -/
theorem splitAux_append (c : Char) (l2 : List Char) :
    ∀ (l1 acc : List Char), c ∉ l1 →
    splitAux c (l1 ++ c :: l2) acc =
      String.mk (acc.reverse ++ l1) :: splitAux c l2 [] := by
  intro l1
  induction l1 with
  | nil =>
    intro acc _
    simp [splitAux]
  | cons x xs ih =>
    intro acc h
    have hx : x ≠ c := fun he => h (he ▸ List.mem_cons_self x xs)
    have hxs : c ∉ xs := fun hm => h (List.mem_cons_of_mem x hm)
    simp only [List.cons_append, splitAux, if_neg (fun he => hx he)]
    simpa using ih (x :: acc) hxs

/-- `split('.')` on a code of the form `t ++ ".base"` with a dot-free `t`. -/
theorem charSplit_base (t : String) (h : '.' ∉ t.data) :
    charSplit '.' (t ++ ".base") = [t, "base"] := by
  have hd : (t ++ ".base").data = t.data ++ '.' :: "base".data := rfl
  show splitAux '.' (t ++ ".base").data [] = [t, "base"]
  rw [hd, splitAux_append '.' _ t.data [] h]
  rfl

/-- The base-type scan succeeds exactly on lists of `<type>.base` reports,
collecting the type names. -/
theorem typesOf_base (errs : List ErrItem) (ts : List String)
    (h : List.Forall₂ (fun e t => ∃ ctx, e = ErrItem.report (t ++ ".base") ctx ∧
      '.' ∉ (t : String).data) errs ts) :
    typesOf errs = some ts := by
  induction h with
  | nil => rfl
  | @cons e t erest trest ht _ ih =>
    obtain ⟨ctx, he, hdot⟩ := ht
    subst he
    simp only [typesOf, charSplit_base t hdot]
    rw [ih]
    rfl

/-- The base-type scan fails as soon as one entry is a non-Report or has a
code whose second dot-segment is not `base`. -/
theorem typesOf_none (errs : List ErrItem)
    (h : ∃ e ∈ errs, e = ErrItem.nonReport ∨
      ∃ c ctx, e = ErrItem.report c ctx ∧ (charSplit '.' c).get? 1 ≠ some "base") :
    typesOf errs = none := by
  induction errs with
  | nil => simp at h
  | cons a rest ih =>
    obtain ⟨e, hmem, hnb⟩ := h
    rcases List.mem_cons.mp hmem with he | he
    · subst he
      rcases hnb with hn | ⟨c, ctx, hr, hne⟩
      · subst hn; rfl
      · subst hr
        simp only [typesOf]
        split
        · rename_i hbase
          exact absurd hbase hne
        · rfl
    · have hrest : typesOf rest = none := ih ⟨e, he, hnb⟩
      cases a with
      | nonReport => rfl
      | report c ctx =>
        simp only [typesOf]
        split
        · rw [hrest]; rfl
        · rfl

/- ### Claim theorems -/

/-- C1: a reference created from key `"...x"` with the default separator `.`
parses to ancestor depth 2 with path `["x"]`, so resolving it reads the key
`x` from the 2nd-level ancestor `state.ancestors[1]`; and resolving any
value reference whose numeric ancestor depth exceeds the ancestors
available in the state raises the fatal "reference exceeds the schema root"
error instead of returning undefined. -/
theorem refAncestorArithmetic :
    Ref.create "...x" {} = .ok refTripleDot ∧
    refTripleDot.ancestor = some (.depth 2) ∧
    refTripleDot.path = ["x"] ∧
    (∀ v st p l, 2 ≤ st.ancestors.length → st.mainstay = none →
      refTripleDot.resolve v st p l = .ok (reach (st.ancestors.getD 1 .undef) ["x"])) ∧
    (∀ (r : Ref) v st p l (n : Nat), r.type = .value → r.ancestor = some (.depth n) →
      st.ancestors.length < n →
      r.resolve v st p l = .error "Invalid reference exceeds the schema root") := by
  refine ⟨rfl, rfl, rfl, ?_, ?_⟩
  · intro v st p l hlen hms
    simp [Ref.resolve, refTripleDot, Ref.resolveFrom, hms]
    exact hlen
  · intro r v st p l n h1 h2 hlt
    cases n with
    | zero => exact absurd hlt (Nat.not_lt_zero _)
    | succ m =>
      simp [Ref.resolve, h1, h2]
      exact hlt

/-- C1 witness: with two ancestors the reference reads the grandparent's
`x`; with one ancestor it is a fatal resolution error. -/
theorem refAncestorArithmetic_witness :
    refTripleDot.resolve (.num 0)
      { ancestors := [.obj [("x", .num 9)], .obj [("x", .num 7)]] } {} =
      .ok (reach ((([.obj [("x", .num 9)], .obj [("x", .num 7)]] : List JSValue).getD 1 .undef)) ["x"]) ∧
    refTripleDot.resolve (.num 0) { ancestors := [.obj []] } {} =
      .error "Invalid reference exceeds the schema root" :=
  ⟨refAncestorArithmetic.2.2.2.1 (.num 0)
      { ancestors := [.obj [("x", .num 9)], .obj [("x", .num 7)]] } {} .undef
      (by decide) rfl,
   refAncestorArithmetic.2.2.2.2 refTripleDot (.num 0) { ancestors := [.obj []] } {}
      .undef 2 rfl rfl (by decide)⟩

/-- C2: `resolve` dispatches on the reference type — global references read
their path from `prefs.context`, local references from the caller-supplied
local map, value references with depth 0 from the value itself, value
references built with the explicit-root prefix from the outermost ancestor
(the last element of `state.ancestors`), and value references with depth N
from `state.ancestors[N-1]`.  Resolution is embedded as a pure function: it
returns the dereferenced value and mutates nothing. -/
theorem refResolveDispatch :
    (∀ (r : Ref) v st p l sh, r.type = .global →
      r.resolve v st p l sh = .ok (r.resolveFrom p.context st sh)) ∧
    (∀ (r : Ref) v st p l sh, r.type = .localType →
      r.resolve v st p l sh = .ok (r.resolveFrom l st sh)) ∧
    (∀ (r : Ref) v st p l sh, r.type = .value → r.ancestor = some (.depth 0) →
      r.resolve v st p l sh = .ok (r.resolveFrom v st sh)) ∧
    (∀ (r : Ref) v st p l sh, r.type = .value → r.ancestor = some .root →
      r.resolve v st p l sh = .ok (r.resolveFrom ((st.ancestors.getLast?).getD .undef) st sh)) ∧
    (∀ (r : Ref) v st p l sh (n : Nat), r.type = .value →
      r.ancestor = some (.depth (n + 1)) → n + 1 ≤ st.ancestors.length →
      r.resolve v st p l sh = .ok (r.resolveFrom (st.ancestors.getD n .undef) st sh)) := by
  refine ⟨?_, ?_, ?_, ?_, ?_⟩
  · intro r v st p l sh h
    simp [Ref.resolve, h]
  · intro r v st p l sh h
    simp [Ref.resolve, h]
  · intro r v st p l sh h1 h2
    simp [Ref.resolve, h1, h2]
  · intro r v st p l sh h1 h2
    simp [Ref.resolve, h1, h2]
  · intro r v st p l sh n h1 h2 h3
    simp [Ref.resolve, h1, h2]
    exact h3

/-- C2 witness: each dispatch class at a concrete reference and state. -/
theorem refResolveDispatch_witness :
    gRef.resolve (.num 0) {} { context := .obj [("g", .num 1)] } = .ok (.num 1) ∧
    lRef.resolve (.num 0) {} {} (.obj [("l", .num 2)]) = .ok (.num 2) ∧
    selfRef.resolve (.obj [("a", .num 3)]) {} {} = .ok (.num 3) ∧
    rootRef.resolve (.num 0) { ancestors := [.obj [], .obj [("r", .num 4)]] } {} =
      .ok (.num 4) ∧
    parentRef.resolve (.num 0) { ancestors := [.obj [("p", .num 5)]] } {} =
      .ok (.num 5) :=
  ⟨refResolveDispatch.1 gRef (.num 0) {} { context := .obj [("g", .num 1)] }
      .undef true rfl,
   refResolveDispatch.2.1 lRef (.num 0) {} {} (.obj [("l", .num 2)]) true rfl,
   refResolveDispatch.2.2.1 selfRef (.obj [("a", .num 3)]) {} {} .undef true rfl rfl,
   refResolveDispatch.2.2.2.1 rootRef (.num 0)
      { ancestors := [.obj [], .obj [("r", .num 4)]] } {} .undef true rfl rfl,
   refResolveDispatch.2.2.2.2 parentRef (.num 0)
      { ancestors := [.obj [("p", .num 5)]] } {} .undef true 0 rfl rfl (by decide)⟩

/-- C3: `describe` emits a plain descriptor with the path always, the type
only when not `value`, the separator only when not the default `.`, the
ancestor only for value references whose ancestor differs from 1, and the
map as its entry array; `build` on that descriptor (restoring the implicit
ancestor default of 1 for value references) returns the very same
reference, which therefore resolves identically on every input. -/
theorem refDescribeBuildRoundTrip (r : Ref) (h : r.WellFormed) :
    r.describe.path = r.path ∧
    r.describe.type = (if r.type = .value then none else some r.type) ∧
    r.describe.separator = (if r.separator = some '.' then none else some r.separator) ∧
    r.describe.ancestor =
      (if r.type = .value ∧ r.ancestor ≠ some (.depth 1) then r.ancestor else none) ∧
    r.describe.map = r.map ∧
    Ref.build r.describe = .ok r ∧
    (∀ v st p l sh, ∃ r2, Ref.build r.describe = .ok r2 ∧
      r2.resolve v st p l sh = r.resolve v st p l sh) :=
  ⟨rfl, rfl, rfl, rfl, rfl, build_describe_ok r h,
   fun _ _ _ _ _ => ⟨r, build_describe_ok r h, rfl⟩⟩

/-- C3 witness: the round trip on a concrete well-formed reference with a
non-default ancestor and a map. -/
theorem refDescribeBuildRoundTrip_witness :
    refWitnessC3.WellFormed ∧ Ref.build refWitnessC3.describe = .ok refWitnessC3 :=
  ⟨by decide, (refDescribeBuildRoundTrip refWitnessC3 (by decide)).2.2.2.2.2.1⟩

/-- C4: on `alternatives().try(number, string.min(3))`, input `5` is
accepted by the first branch with value 5 — the loop returns that result
whatever matches follow, so later branches are not evaluated — while input
`"ab"` is rejected with the aggregate `alternatives.match` error carrying
the two collected branch failures (the number branch's base-type mismatch
and the string branch's `string.min`), not a single branch's own code. -/
theorem alternativesTryScenario :
    (∀ env, altValidate env altNS (.num 5) {} {} = .ok (.success (.num 5))) ∧
    (∀ env rest, altLoop env (.num 5) {} {} (.schemaM ⟨.numberB, none⟩ :: rest) [] =
      .ok (.success (.num 5))) ∧
    (∀ env, altValidate env altNS (.str "ab") {} {} =
      .ok (.failure (.matched [.report "number.base" [], .report "string.min"
        [("limit", .num 3), ("value", .str "ab"), ("encoding", .undef)]]))) :=
  ⟨fun _ => rfl, fun _ _ => rfl, fun _ => rfl⟩

/-- C4 witness: the scenario under the concrete environment. -/
theorem alternativesTryScenario_witness :
    altValidate envId altNS (.num 5) {} {} = .ok (.success (.num 5)) ∧
    altLoop envId (.num 5) {} {} [.schemaM ⟨.numberB, none⟩] [] =
      .ok (.success (.num 5)) :=
  ⟨alternativesTryScenario.1 envId, alternativesTryScenario.2.1 envId []⟩

/-- C5: `string().min(2)` rejects `"a"` with code `string.min` and context
limit 2, accepts `"ab"` unchanged; and in general a min/max/length rule
accepts a non-empty string exactly when the string's length (its byte
length under an encoding) compares to the limit under the rule's recorded
operator. -/
theorem stringMinScenario :
    (∀ env, stringValidate env strMin2 (.str "a") {} {} =
      .ok { value := .str "a"
            errors := some [.report "string.min"
              [("limit", .num 2), ("value", .str "a"), ("encoding", .undef)]] }) ∧
    (∀ env, stringValidate env strMin2 (.str "ab") {} {} =
      .ok { value := .str "ab" }) ∧
    (∀ env (name : String) (limit : Nat) (enc : Option Encoding)
      (op : Common.CmpOp) (value : String) st p, value ≠ "" →
      (stringValidate env { rules := [.length name (.lit (.num limit)) enc op] }
          (.str value) st p = .ok { value := .str value } ↔
        Common.compare (match enc with
          | some _ => value.utf8ByteSize
          | none => value.data.length) limit op = true)) := by
  refine ⟨fun _ => rfl, fun _ => rfl, ?_⟩
  intro env name limit enc op value st p hne
  simp only [stringValidate, runStrRules, strRuleValidate, resolveRuleLimit,
    jsToNat, Int.toNat_natCast, if_neg hne]
  by_cases hc : Common.compare (match enc with
      | some _ => value.utf8ByteSize
      | none => value.data.length) limit op = true
  · rw [if_pos hc]
    exact iff_of_true rfl hc
  · rw [if_neg hc]
    exact iff_of_false (by simp) hc

/-- C5 witness: the concrete scenario and the general comparison law at
`min(2)` on `"ab"`. -/
theorem stringMinScenario_witness :
    stringValidate envId strMin2 (.str "a") {} {} =
      .ok { value := .str "a"
            errors := some [.report "string.min"
              [("limit", .num 2), ("value", .str "a"), ("encoding", .undef)]] } ∧
    (stringValidate envId strMin2 (.str "ab") {} {} = .ok { value := .str "ab" } ↔
      Common.compare 2 2 .ge = true) :=
  ⟨stringMinScenario.1 envId,
   stringMinScenario.2.2 envId "min" 2 none .ge "ab" {} {} (by decide)⟩

/-- C6: builder calls do not alter the receiver — `replace`, `try`, `label`
and `when` clone the receiver and mutate only the clone, so the receiver's
store slot, and hence its description, is unchanged by the call. -/
theorem builderImmutability :
    (∀ (st : List StringSchema) (self : Nat) (pattern repl : String),
      self < st.length →
      storeGet (replaceOpS st self pattern repl).1 self = storeGet st self ∧
      describeStr (storeGet (replaceOpS st self pattern repl).1 self) =
        describeStr (storeGet st self)) ∧
    (∀ (st : List AltSchema) (self : Nat) (schemas : Option (List Branch))
      (st2 : List AltSchema) (i : Nat), self < st.length →
      tryOpS st self schemas = .ok (st2, i) →
      storeGet st2 self = storeGet st self ∧
      describeAlt (storeGet st2 self) = describeAlt (storeGet st self)) ∧
    (∀ (st : List AltSchema) (self : Nat) (name : String), self < st.length →
      storeGet (labelOpS st self name).1 self = storeGet st self ∧
      describeAlt (storeGet (labelOpS st self name).1 self) =
        describeAlt (storeGet st self)) ∧
    (∀ (st : List AltSchema) (self : Nat) (cond : WhenCondition)
      (options : WhenOptions) (st2 : List AltSchema) (i : Nat), self < st.length →
      whenOpS st self cond options = .ok (st2, i) →
      storeGet st2 self = storeGet st self ∧
      describeAlt (storeGet st2 self) = describeAlt (storeGet st self)) := by
  refine ⟨?_, ?_, ?_, ?_⟩
  · intro st self pattern repl hlt
    have he : storeGet (replaceOpS st self pattern repl).1 self = storeGet st self := by
      simp only [replaceOpS]
      exact storeGet_append_lt st _ self hlt
    exact ⟨he, by rw [he]⟩
  · intro st self schemas st2 i hlt h
    obtain ⟨obj, h1, _⟩ := tryOpS_ok_shape h
    subst h1
    have he := storeGet_append_lt st obj self hlt
    exact ⟨he, by rw [he]⟩
  · intro st self name hlt
    have he : storeGet (labelOpS st self name).1 self = storeGet st self := by
      simp only [labelOpS]
      exact storeGet_append_lt st _ self hlt
    exact ⟨he, by rw [he]⟩
  · intro st self cond options st2 i hlt h
    obtain ⟨obj, h1, _⟩ := whenOpS_ok_shape h
    subst h1
    have he := storeGet_append_lt st obj self hlt
    exact ⟨he, by rw [he]⟩

/-- C6 witness: concrete builder calls leave the receiver slot unchanged. -/
theorem builderImmutability_witness :
    storeGet (replaceOpS [{}] 0 "a" "b").1 0 = storeGet ([{}] : List StringSchema) 0 ∧
    storeGet ([({} : AltSchema), { matchesT := [.schemaM ⟨.numberB, none⟩] }] : List AltSchema) 0 =
      storeGet ([{}] : List AltSchema) 0 ∧
    storeGet (labelOpS [{}] 0 "x").1 0 = storeGet ([{}] : List AltSchema) 0 :=
  ⟨(builderImmutability.1 [{}] 0 "a" "b" (by decide)).1,
   (builderImmutability.2.1 [{}] 0 (some [⟨.numberB, none⟩])
      [{}, { matchesT := [.schemaM ⟨.numberB, none⟩] }] 1 (by decide) rfl).1,
   (builderImmutability.2.2.1 [{}] 0 "x" (by decide)).1⟩

/-- C7: invalid builder arguments throw synchronously at schema-construction
time — `pattern` on a global/sticky regex or with an unknown option key, and
`when` combining `switch` with `is` or supplying none of
`then`/`otherwise`/`switch` — while a data-validity failure is returned as a
structured result value, never thrown. -/
theorem constructionErrorsThrow :
    (∀ (st : List StringSchema) (self : Nat) (regex : Regex)
      (options : PatternOptions),
      (regex.flags.contains 'g' || regex.flags.contains 'y') = true →
      patternOpS st self regex options =
        .error "regex should not use global or sticky mode") ∧
    (∀ (st : List StringSchema) (self : Nat) (regex : Regex)
      (fields : List (String × JSValue)),
      regex.flags.contains 'g' = false → regex.flags.contains 'y' = false →
      ((fields.map Prod.fst).filter
        (fun k => !(["invert", "name"].contains k))).isEmpty = false →
      ∃ msg, patternOpS st self regex (.object fields) = .error msg) ∧
    (∀ (st : List AltSchema) (self : Nat) (cond : WhenCondition)
      (options : WhenOptions), (storeGet st self).endedSwitch = false →
      options.switchC.isSome = true → options.isC.isSome = true →
      whenOpS st self cond options =
        .error "Cannot combine \"switch\" with \"is\"") ∧
    (∀ (st : List AltSchema) (self : Nat) (cond : WhenCondition)
      (options : WhenOptions), (storeGet st self).endedSwitch = false →
      options.switchC = none → options.thenB = none → options.otherwiseB = none →
      whenOpS st self cond options =
        .error "options must have at least one of \"then\", \"otherwise\", or \"switch\"") ∧
    (∀ env (limit : Nat), ∃ res,
      stringValidate env { rules := [.length "min" (.lit (.num limit)) none .ge] }
        (.str "") {} {} = .ok res ∧ res.errors.isSome = true) := by
  refine ⟨?_, ?_, ?_, ?_, ?_⟩
  · intro st self regex options hflag
    simp only [patternOpS]
    rw [if_pos hflag]
  · intro st self regex fields hg hy hne
    have hgy : (regex.flags.contains 'g' || regex.flags.contains 'y') = false := by
      rw [hg, hy]; rfl
    refine ⟨"Options contain unknown keys: " ++ String.intercalate ","
      ((fields.map Prod.fst).filter (fun k => !(["invert", "name"].contains k))), ?_⟩
    simp only [patternOpS, Common.assertOptions]
    rw [if_neg (by rw [hgy]; exact Bool.false_ne_true),
      if_neg (by rw [hne]; exact Bool.false_ne_true)]
  · intro st self cond options hend hsw his
    unfold whenOpS
    simp only
    rw [if_neg (by simp [hend]), if_pos (by simp [hsw, his])]
  · intro st self cond options hend hsw hthen hother
    unfold whenOpS
    simp only
    rw [if_neg (by simp [hend]), if_neg (by simp [hsw]),
      if_neg (by simp [hsw]), if_pos (by simp [hsw, hthen, hother])]
  · intro env limit
    exact ⟨_, rfl, rfl⟩

/-- C7 witness: each construction error at a concrete call, and a concrete
data failure returned as a structured result. -/
theorem constructionErrorsThrow_witness :
    patternOpS [{}] 0 gRegex (.nameStr "n") =
      .error "regex should not use global or sticky mode" ∧
    (∃ msg, patternOpS [{}] 0 { source := "x" } (.object [("bogus", .num 1)]) =
      .error msg) ∧
    whenOpS [{}] 0 (.ckey "a") { isC := some (fun _ => true), switchC := some [] } =
      .error "Cannot combine \"switch\" with \"is\"" ∧
    whenOpS [{}] 0 (.ckey "a") {} =
      .error "options must have at least one of \"then\", \"otherwise\", or \"switch\"" ∧
    (∃ res, stringValidate envId strMin2 (.str "") {} {} = .ok res ∧
      res.errors.isSome = true) :=
  ⟨constructionErrorsThrow.1 [{}] 0 gRegex (.nameStr "n") rfl,
   constructionErrorsThrow.2.1 [{}] 0 { source := "x" } [("bogus", .num 1)]
      rfl rfl rfl,
   constructionErrorsThrow.2.2.1 [{}] 0 (.ckey "a")
      { isC := some (fun _ => true), switchC := some [] } rfl rfl rfl,
   constructionErrorsThrow.2.2.2.1 [{}] 0 (.ckey "a") {} rfl rfl rfl rfl,
   constructionErrorsThrow.2.2.2.2 envId 2⟩

/-- C8: the alternatives base validate aggregates the collected branch
failures in four tiers — no collected error (all matches condition-style
with no applicable branch) yields the single `alternatives.base` error;
exactly one collected error is passed through unchanged; errors that are
all type-base reports yield `alternatives.types` with the list of type
names; any non-Report or non-base code yields `alternatives.match` with the
details of all collected errors. -/
theorem alternativesAggregationTiers :
    (altAggregate [] = .base) ∧
    (∀ env v st p, altValidate env { matchesT := [] } v st p = .ok (.failure .base)) ∧
    (∀ e, altAggregate [e] = .passthrough [e]) ∧
    (∀ errs ts, 2 ≤ errs.length →
      List.Forall₂ (fun e t => ∃ ctx, e = ErrItem.report (t ++ ".base") ctx ∧
        '.' ∉ (t : String).data) errs ts →
      altAggregate errs = .types ts) ∧
    (∀ errs, 2 ≤ errs.length →
      (∃ e ∈ errs, e = ErrItem.nonReport ∨
        ∃ c ctx, e = ErrItem.report c ctx ∧ (charSplit '.' c).get? 1 ≠ some "base") →
      altAggregate errs = .matched errs) := by
  refine ⟨rfl, fun _ _ _ _ => rfl, fun _ => rfl, ?_, ?_⟩
  · intro errs ts hlen hf
    match errs, hlen with
    | a :: b :: rest, _ =>
      simp only [altAggregate]
      rw [typesOf_base _ _ hf]
  · intro errs hlen hex
    match errs, hlen with
    | a :: b :: rest, _ =>
      simp only [altAggregate]
      rw [typesOf_none _ hex]

/-- C8 witness: two base-type failures aggregate to `alternatives.types`;
a mixed pair aggregates to `alternatives.match`. -/
theorem alternativesAggregationTiers_witness :
    altAggregate [.report "number.base" [], .report "boolean.base" []] =
      .types ["number", "boolean"] ∧
    altAggregate [.report "number.base" [], .report "string.min" []] =
      .matched [.report "number.base" [], .report "string.min" []] :=
  ⟨alternativesAggregationTiers.2.2.2.1
      [.report "number.base" [], .report "boolean.base" []] ["number", "boolean"]
      (by decide)
      (.cons ⟨[], rfl, by decide⟩ (.cons ⟨[], rfl, by decide⟩ .nil)),
   alternativesAggregationTiers.2.2.2.2
      [.report "number.base" [], .report "string.min" []]
      (by decide)
      ⟨.report "string.min" [], by simp,
        Or.inr ⟨"string.min", [], rfl, by decide⟩⟩⟩

/-- C9: with the truncate flag set and a max rule present (and no isoDate
rule), the string coerce hook returns the value sliced to the max limit —
applied after the normalize/case/trim/replacements(/hex) transforms of
`stringPre`, in that fixed order — with resulting length at most the limit;
and when the max limit is a Reference whose resolved value is not a valid
positive-integer limit, coerce returns a structured `any.ref` error instead
of truncating or throwing. -/
theorem stringTruncateCoerce :
    ∀ env (s : StringSchema) (value : String) (st : ValState) (p : Prefs),
      s.truncate = true → s.hasIsoDate = false →
      ((∀ (n : Nat) (enc : Option Encoding) (op : Common.CmpOp),
        s.getMax = some (.lit (.num (n : Int)), enc, op) →
        stringCoerce env s value st p =
          .ok { value := jsTake (stringPre env s value) n } ∧
        (jsTake (stringPre env s value) n).data.length ≤ n) ∧
      (∀ (r : Ref) (lv : JSValue) (enc : Option Encoding) (op : Common.CmpOp),
        s.getMax = some (.refA r, enc, op) →
        r.resolve (.str (stringPre env s value)) st p = .ok lv →
        Common.limit lv = false →
        stringCoerce env s value st p =
          .ok { value := stringPre env s value
                errors := some [.report "any.ref"
                  [("arg", .str "limit"),
                   ("reason", .str "must be a positive integer")]] })) := by
  intro env s value st p hT hIso
  constructor
  · intro n enc op hMax
    constructor
    · simp only [stringCoerce, hIso, Bool.false_eq_true, if_false,
        stringCoerceTruncate, hT, if_true, hMax, jsSliceTo]
      rw [if_pos (by exact_mod_cast Nat.zero_le n)]
      simp [Int.toNat_natCast]
    · simp [jsTake]
  · intro r lv enc op hMax hres hlim
    simp only [stringCoerce, hIso, Bool.false_eq_true, if_false,
      stringCoerceTruncate, hT, if_true, hMax, hres, hlim]

/-- C9 witness: `max(2).truncate()` slices `"abcd"` to two characters; a
reference limit resolving to `undefined` yields the `any.ref` error. -/
theorem stringTruncateCoerce_witness :
    stringCoerce envId truncSchema "abcd" {} {} =
      .ok { value := jsTake (stringPre envId truncSchema "abcd") 2 } ∧
    stringCoerce envId truncRefSchema "abcd" {} {} =
      .ok { value := stringPre envId truncRefSchema "abcd"
            errors := some [.report "any.ref"
              [("arg", .str "limit"),
               ("reason", .str "must be a positive integer")]] } :=
  ⟨((stringTruncateCoerce envId truncSchema "abcd" {} {} rfl rfl).1
      2 none .le rfl).1,
   (stringTruncateCoerce envId truncRefSchema "abcd" {} {} rfl rfl).2
      refLimit .undef none .le rfl rfl rfl⟩

/-- C10: a `when` clause supplying both `then` and `otherwise` sets the
`_endedSwitch` flag on the produced schema, and every subsequent `try` or
`when` call on that schema throws "Unreachable condition" at construction
time, so no match can be appended after an exhaustive condition. -/
theorem endedSwitchUnreachable :
    ∀ (st : List AltSchema) (self : Nat) (cond : WhenCondition)
      (options : WhenOptions) (st2 : List AltSchema) (i : Nat),
      options.switchC = none → options.thenB.isSome = true →
      options.otherwiseB.isSome = true →
      whenOpS st self cond options = .ok (st2, i) →
      (storeGet st2 i).endedSwitch = true ∧
      (∀ list, tryOpS st2 i (some list) = .error "Unreachable condition") ∧
      (∀ cond2 options2, whenOpS st2 i cond2 options2 =
        .error "Unreachable condition") := by
  intro st self cond options st2 i hsw hthen hother h
  obtain ⟨item, h1, h2⟩ := whenOpS_single_inv hsw h
  subst h1
  subst h2
  have hget := storeGet_append_self st ({ storeGet st self with
    matchesT := (storeGet st self).matchesT ++ [item]
    endedSwitch := (storeGet st self).endedSwitch ||
      (options.thenB.isSome && options.otherwiseB.isSome) })
  have hflag : (storeGet (st ++ [{ storeGet st self with
      matchesT := (storeGet st self).matchesT ++ [item]
      endedSwitch := (storeGet st self).endedSwitch ||
        (options.thenB.isSome && options.otherwiseB.isSome) }]) st.length).endedSwitch = true := by
    rw [hget]
    simp [hthen, hother]
  refine ⟨hflag, ?_, ?_⟩
  · intro list
    simp only [tryOpS]
    rw [if_pos hflag]
  · intro cond2 options2
    unfold whenOpS
    simp only
    rw [if_pos hflag]

/-- C10 witness: the concrete `when` with both branches ends the switch and
makes subsequent `try`/`when` calls throw. -/
theorem endedSwitchUnreachable_witness :
    (storeGet altEndedStore 1).endedSwitch = true ∧
    tryOpS altEndedStore 1 (some []) = .error "Unreachable condition" ∧
    whenOpS altEndedStore 1 (.ckey "a") {} = .error "Unreachable condition" :=
  ⟨(endedSwitchUnreachable [{}] 0 condT optTO altEndedStore 1 rfl rfl rfl rfl).1,
   (endedSwitchUnreachable [{}] 0 condT optTO altEndedStore 1 rfl rfl rfl rfl).2.1 [],
   (endedSwitchUnreachable [{}] 0 condT optTO altEndedStore 1 rfl rfl rfl rfl).2.2
      (.ckey "a") {}⟩
